import Mathlib

/-!
Shallow embedding of `matchmaker.py` (the match_maker repository).

Modelling conventions:
* Numeric quantities of the host (distances, surface areas, bounding-box
  coordinates, the soft-select radius) are rationals; Python's
  `round(x, 3)` is modelled by `round3` (round to an integer multiple of
  1/1000; the tie-at-half behaviour of the rounding mode plays no role in
  any statement below).
* Host-application queries (`Vector.distanceTo`, `softSelect` falloff
  results, the scene list behind `pm.ls`) are parameters: a `Host` record
  carries the scene, the distance function of `pm.dt.Vector.distanceTo`,
  the soft-selection oracle behind `MGlobal.getRichSelection`, and the
  factory defaults restored by `softSelectReset`.  Theorems quantify over
  the host, so they hold for the real geometric interpretations.
* Python dictionaries keyed by scene nodes are association lists whose
  keys are unique; iteration order is fixed to first-insertion order
  (`dedupKeys`).  In every use below the value is a function of the key,
  so overwriting on re-insertion is idempotent.
* Python `set` expressions (`set(b).difference(set(a))`,
  `set(a) & set(b)`) produce deduplicated lists; their iteration order is
  unspecified in Python, and is fixed here to first-occurrence order of
  the right operand.
* Raising an exception (`min()` of an empty sequence, indexing an empty
  list) is modelled by `Option`: `none` is an escaped exception.
-/

namespace MatchMaker

/-- A point in 3-space, as used for bounding-box centers. -/
abbrev Point := ℚ × ℚ × ℚ

/-- Python `round(x, 3)`: round to three decimal places. -/
def round3 (x : ℚ) : ℚ := (round (x * 1000) : ℤ) / 1000

/-- The `space` keyword of `pymel` `getBoundingBox`: world space or the
non-world (object) spaces. -/
inductive Space
  | world
  | object
deriving DecidableEq, Repr

/-- A scene transform node, with the host-supplied attributes the tool
queries: its (node) name, whether `listRelatives(children=True,
type='mesh')` is non-empty, its surface `area()`, and its bounding-box
center in each space.  `id` stands for object identity of distinct scene
objects (two distinct nodes may share a name before renaming). -/
structure Node where
  id : ℕ
  name : String
  hasMeshChild : Bool
  area : ℚ
  worldBBCenter : Point
  objectBBCenter : Point
deriving DecidableEq, Repr

/-- Model of `node.getBoundingBox(space=...).center()`. -/
def getBoundingBoxCenter (n : Node) : Space → Point
  | Space.world => n.worldBBCenter
  | Space.object => n.objectBBCenter

/-- Keys of a Python dict built by inserting the given keys in order:
first occurrence kept, duplicates dropped. -/
def dedupKeys : List Node → List Node
  | [] => []
  | x :: xs => x :: (dedupKeys xs).filter (fun y => y ≠ x)

/-- Python `find_closest(dictionary, target)`: `min_diff` is the minimum of
`abs(value - target)` over the dict values (raising on an empty dict,
modelled as `none`), and the returned keys are those whose
`round(abs(v - target), 3)` equals `round(min_diff, 3)`, in dict
iteration order. -/
def find_closest (dict : List (Node × ℚ)) (target : ℚ) : Option (List Node) :=
  match (dict.map (fun kv => |kv.2 - target|)).min? with
  | none => none
  | some min_diff =>
      some ((dict.filter (fun kv => round3 |kv.2 - target| = round3 min_diff)).map Prod.fst)

/-- The distance recorded by `closest_center` for one straw: the host's
`Vector.distanceTo` between world-space bounding-box centers. -/
def centerDist (d : Point → Point → ℚ) (needle straw : Node) : ℚ :=
  d (getBoundingBoxCenter needle Space.world) (getBoundingBoxCenter straw Space.world)

/-- Python `closest_center(needle, haystack)`: build the dict mapping each straw
to the distance between world bounding-box centers, then
`find_closest(center_points, 0.0)`. -/
def closest_center (d : Point → Point → ℚ) (needle : Node) (haystack : List Node) :
    Option (List Node) :=
  find_closest ((dedupKeys haystack).map (fun straw => (straw, centerDist d needle straw))) 0

/-- Python `closest_area(needle, haystack)`: dict of surface areas, then
`find_closest(straw_areas, needle_area)`. -/
def closest_area (needle : Node) (haystack : List Node) : Option (List Node) :=
  find_closest ((dedupKeys haystack).map (fun straw => (straw, straw.area))) needle.area

/-- The soft-select options set through `pm.softSelect`:
`softSelectEnabled`, `softSelectFalloff` (2 = global), and
`softSelectDistance`. -/
structure SoftSelectOpts where
  enabled : Bool
  falloff : ℕ
  distance : ℚ
deriving DecidableEq, Repr

/-- The mutable host state the tool touches: the active selection and the
soft-select options. -/
structure MayaState where
  selection : List Node
  soft : SoftSelectOpts
deriving DecidableEq, Repr

/-- The host application, abstracted: the scene's nodes, the distance
function of `Vector.distanceTo`, the factory soft-select options restored
by `softSelectReset=True`, and the oracle `affected sel opts` giving the
partial path names of the transforms the rich (soft) selection reports as
affected, as a function of the active selection and soft-select options. -/
structure Host where
  scene : List Node
  dist : Point → Point → ℚ
  softDefaults : SoftSelectOpts
  affected : List Node → SoftSelectOpts → List String

/-- Model of `pm.ls(names)`: the scene nodes whose name is among `names`, in scene
order. -/
def ls (host : Host) (names : List String) : List Node :=
  host.scene.filter (fun n => n.name ∈ names)

/-- Python `get_softselection()`: the partial path names of all transforms
affected by the current soft selection, read from the host oracle at the
current state. -/
def get_softselection (host : Host) (st : MayaState) : List String :=
  host.affected st.selection st.soft

/-- Python `select_in_sphere(item, radius)`: save the selection, select `item`,
enable soft select with global falloff (2) and the given distance, read
the affected transforms, disable and reset soft select, restore (or
clear) the selection, and return `pm.ls` of the affected names together
with the final state. -/
def select_in_sphere (host : Host) (st : MayaState) (item : Node) (radius : ℚ) :
    MayaState × List Node :=
  let selected := st.selection
  let st1 : MayaState := { st with selection := [item] }
  let st2 : MayaState :=
    { st1 with soft := { enabled := true, falloff := 2, distance := radius } }
  let items := get_softselection host st2
  let st3 : MayaState := { st2 with soft := { host.softDefaults with enabled := false } }
  let st4 : MayaState := { st3 with selection := if selected ≠ [] then selected else [] }
  (st4, ls host items)

/-- The value `select_in_sphere` returns, as a pure query: `pm.ls` of the
names the host reports affected when exactly `item` is selected and soft
select is enabled with global falloff and the given radius.  (It does not
depend on the state `select_in_sphere` starts from.) -/
def sphereQuery (host : Host) (item : Node) (radius : ℚ) : List Node :=
  ls host (host.affected [item] { enabled := true, falloff := 2, distance := radius })

/-- Python `set_exclusion(a, b)`: `list(set(b).difference(set(a)))` — the items
of `b`, deduplicated, with every item of `a` removed. -/
def set_exclusion (a b : List Node) : List Node :=
  (dedupKeys b).filter (fun x => x ∉ a)

/-- Python `list(set(a) & set(b))`: the deduplicated items of `b` that also lie
in `a`. -/
def listInter (a b : List Node) : List Node :=
  (dedupKeys b).filter (fun x => x ∈ a)

/-- Python `find_best_match(needle, haystack)`: the center matches, returned
directly when there is exactly one, otherwise the first of the area
matches among them. -/
def find_best_match (d : Point → Point → ℚ) (needle : Node) (haystack : List Node) :
    Option Node :=
  (closest_center d needle haystack).bind (fun center_matches =>
    if center_matches.length = 1 then
      center_matches.head?
    else
      (closest_area needle center_matches).bind (fun area_matches => area_matches.head?))

/-- The haystack `match` builds for one source node: the spherical search
around it (default radius 1.0) with every source item excluded. -/
def matchHaystack (host : Host) (source : List Node) (node : Node) : List Node :=
  set_exclusion source (sphereQuery host node 1)

/-- The loop of `match(source)`, recursing over the remaining nodes while
`source` stays the full list used for exclusion. -/
def matchAux (host : Host) (source : List Node) : List Node → Option (List (Node × Node))
  | [] => some []
  | node :: rest =>
    if node.hasMeshChild then
      (find_best_match host.dist node (matchHaystack host source node)).bind (fun m =>
        (matchAux host source rest).map (fun ms => (node, m) :: ms))
    else
      matchAux host source rest

/-- Python `match(source)`: pair every source node that has an immediate mesh
child with its best match among the nearby non-source nodes. -/
def matchNodes (host : Host) (source : List Node) : Option (List (Node × Node)) :=
  matchAux host source source

/-- The `Window` state the `match` slot reads: the loaded low- and
high-poly lists and the text of the search and replace line edits. -/
structure Window where
  low_poly_items : List Node
  high_poly_items : List Node
  search : String
  replace : String

/-- The candidate set `Window.match` builds for one low-poly item: nodes
within the spherical search of radius 0.5, minus all low-poly items,
intersected with the high-poly items whenever that list is non-empty. -/
def wmCandidates (host : Host) (w : Window) (item : Node) : List Node :=
  let items_near := sphereQuery host item (1 / 2)
  let items := set_exclusion w.low_poly_items items_near
  if w.high_poly_items ≠ [] then listInter w.high_poly_items items else items

/-- The loop of `Window.match`, producing the renames performed, in
order: each is (renamed node, new name). -/
def windowMatchAux (host : Host) (w : Window) : List Node → Option (List (Node × String))
  | [] => some []
  | item :: rest =>
    let items := wmCandidates host w item
    if items ≠ [] then
      (find_best_match host.dist item items).bind (fun best =>
        (windowMatchAux host w rest).map (fun ms =>
          (best, item.name.replace w.search w.replace) :: ms))
    else
      windowMatchAux host w rest

/-- Python `Window.match`: for each loaded low-poly item with surviving
candidates, rename its best match to the item's node name with the search
text replaced by the replace text.  Returns the renames performed. -/
def windowMatch (host : Host) (w : Window) : Option (List (Node × String)) :=
  windowMatchAux host w w.low_poly_items

/-- A concrete distance function for witnesses: the L1 distance (any
non-negative function would do; theorems quantify over it). -/
def exDist (p q : Point) : ℚ :=
  |p.1 - q.1| + |p.2.1 - q.2.1| + |p.2.2 - q.2.2|

/-- Witness node: a low-poly cube at the origin. -/
def nLow : Node :=
  { id := 0, name := "cube_lp", hasMeshChild := true, area := 6,
    worldBBCenter := (0, 0, 0), objectBBCenter := (0, 0, 0) }

/-- Witness node: a high-poly cube near the origin. -/
def nHigh : Node :=
  { id := 1, name := "cube_hp", hasMeshChild := true, area := 7,
    worldBBCenter := (0, 0, 1 / 4), objectBBCenter := (0, 0, 0) }

/-- Witness node: a second high-poly candidate, equidistant with `nHigh`
from `nLow` but with a worse area match. -/
def nFar : Node :=
  { id := 2, name := "cube2_hp", hasMeshChild := true, area := 20,
    worldBBCenter := (0, 0, -1 / 4), objectBBCenter := (1, 1, 1) }

/-- Witness node: like `nLow` but with a different object-space bounding
box center. -/
def nLowSkew : Node :=
  { id := 0, name := "cube_lp", hasMeshChild := true, area := 6,
    worldBBCenter := (0, 0, 0), objectBBCenter := (5, 5, 5) }

/-- Witness host: three nodes; the soft-selection oracle reports every
scene node affected whenever soft select is enabled, and nothing
otherwise. -/
def exHost : Host :=
  { scene := [nLow, nHigh, nFar],
    dist := exDist,
    softDefaults := { enabled := false, falloff := 0, distance := 5 },
    affected := fun _ opts => if opts.enabled then ["cube_lp", "cube_hp", "cube2_hp"] else [] }

/-- Witness host: the soft-selection oracle never reports anything. -/
def emptyHost : Host :=
  { scene := [nLow, nHigh, nFar],
    dist := exDist,
    softDefaults := { enabled := false, falloff := 0, distance := 5 },
    affected := fun _ _ => [] }

/-- Witness window: one low-poly item loaded, no high-poly list. -/
def exWindow : Window :=
  { low_poly_items := [nLow], high_poly_items := [], search := "_lp", replace := "_hp" }

/-! ### Lemmas about the dict model -/

theorem mem_dedupKeys {a : Node} {l : List Node} : a ∈ dedupKeys l ↔ a ∈ l := by
  induction l with
  | nil => exact Iff.rfl
  | cons x xs ih =>
    simp only [dedupKeys, List.mem_cons, List.mem_filter, ih, decide_eq_true_eq]
    by_cases h : a = x
    · simp [h]
    · simp [h]

theorem nodup_dedupKeys {l : List Node} : (dedupKeys l).Nodup := by
  induction l with
  | nil => exact List.nodup_nil
  | cons x xs ih =>
    refine List.nodup_cons.mpr ⟨?_, ih.filter _⟩
    simp [List.mem_filter]

theorem dedupKeys_eq_self {l : List Node} (h : l.Nodup) : dedupKeys l = l := by
  induction l with
  | nil => rfl
  | cons x xs ih =>
    rw [List.nodup_cons] at h
    simp only [dedupKeys, ih h.2]
    rw [List.filter_eq_self.mpr]
    intro a ha
    simp only [decide_eq_true_eq]
    intro e
    exact h.1 (e ▸ ha)

theorem dedupKeys_eq_nil_iff {l : List Node} : dedupKeys l = [] ↔ l = [] := by
  cases l <;> simp [dedupKeys]

/-! ### Lemmas about list minima -/

theorem minQ_eq_some_iff {xs : List ℚ} {a : ℚ} :
    xs.min? = some a ↔ a ∈ xs ∧ ∀ b ∈ xs, a ≤ b := by
  haveI : Std.Antisymm ((· : ℚ) ≤ ·) := ⟨fun h1 h2 => le_antisymm h1 h2⟩
  exact List.min?_eq_some_iff le_refl min_choice (fun _ _ _ => le_min_iff)

theorem min?_map_dedupKeys (f : Node → ℚ) (l : List Node) :
    ((dedupKeys l).map f).min? = (l.map f).min? := by
  cases h1 : ((dedupKeys l).map f).min? with
  | none =>
    rw [List.min?_eq_none_iff, List.map_eq_nil_iff, dedupKeys_eq_nil_iff] at h1
    simp [h1]
  | some m =>
    rw [minQ_eq_some_iff] at h1
    obtain ⟨hmem, hle⟩ := h1
    symm
    rw [minQ_eq_some_iff]
    constructor
    · obtain ⟨s, hs, rfl⟩ := List.mem_map.mp hmem
      exact List.mem_map.mpr ⟨s, mem_dedupKeys.mp hs, rfl⟩
    · intro b hb
      obtain ⟨s, hs, rfl⟩ := List.mem_map.mp hb
      exact hle _ (List.mem_map.mpr ⟨s, mem_dedupKeys.mpr hs, rfl⟩)

/-! ### The shape of `find_closest` on key-determined dicts -/

theorem find_closest_mapDict (f : Node → ℚ) (target : ℚ) (l : List Node) (hl : l ≠ []) :
    ∃ m, (l.map (fun s => |f s - target|)).min? = some m ∧
      find_closest ((dedupKeys l).map (fun s => (s, f s))) target
        = some ((dedupKeys l).filter (fun s => round3 |f s - target| = round3 m)) ∧
      (dedupKeys l).filter (fun s => round3 |f s - target| = round3 m) ≠ [] := by
  obtain ⟨m, hm⟩ : ∃ m, (l.map (fun s => |f s - target|)).min? = some m := by
    cases h : (l.map (fun s => |f s - target|)).min? with
    | none =>
      rw [List.min?_eq_none_iff, List.map_eq_nil_iff] at h
      exact absurd h hl
    | some m => exact ⟨m, rfl⟩
  have hmap : (((dedupKeys l).map (fun s => (s, f s))).map (fun kv => |kv.2 - target|))
      = (dedupKeys l).map (fun s => |f s - target|) := by
    rw [List.map_map]; rfl
  obtain ⟨s0, hs0, hfs0⟩ : ∃ s ∈ l, |f s - target| = m := by
    have := (minQ_eq_some_iff.mp hm).1
    obtain ⟨s, hs, hfs⟩ := List.mem_map.mp this
    exact ⟨s, hs, hfs⟩
  refine ⟨m, hm, ?_, ?_⟩
  · unfold find_closest
    rw [hmap, min?_map_dedupKeys, hm]
    simp only [List.filter_map, List.map_map]
    congr 1
    have hcomp : (Prod.fst ∘ fun s : Node => (s, f s)) = id := rfl
    rw [show ((fun kv : Node × ℚ => decide (round3 |kv.2 - target| = round3 m)) ∘
          fun s : Node => (s, f s))
        = (fun s : Node => decide (round3 |f s - target| = round3 m)) from rfl,
      hcomp, List.map_id]
  · refine List.ne_nil_of_mem (a := s0) ?_
    rw [List.mem_filter]
    exact ⟨mem_dedupKeys.mpr hs0, by simp [hfs0]⟩

/-! ### Consequences for the matching functions -/

theorem head?_filter (p : Node → Bool) (l : List Node) : (l.filter p).head? = l.find? p := by
  induction l with
  | nil => rfl
  | cons x xs ih =>
    by_cases h : p x
    · rw [List.filter_cons_of_pos h, List.find?_cons_of_pos _ h]
      rfl
    · rw [List.filter_cons_of_neg h, List.find?_cons_of_neg _ h, ih]

theorem mem_of_head? {l : List Node} {a : Node} (h : l.head? = some a) : a ∈ l := by
  cases l with
  | nil => exact Option.noConfusion h
  | cons x xs =>
    rw [List.head?_cons, Option.some.injEq] at h
    exact h ▸ List.mem_cons_self _ _

theorem closest_center_nil (d : Point → Point → ℚ) (needle : Node) :
    closest_center d needle [] = none := rfl

theorem find_best_match_mem (d : Point → Point → ℚ) (needle : Node) (hay : List Node)
    (h : hay ≠ []) : ∃ r, find_best_match d needle hay = some r ∧ r ∈ hay := by
  obtain ⟨m, _, hcc, hne⟩ := find_closest_mapDict (centerDist d needle) 0 hay h
  have hccc : closest_center d needle hay
      = some ((dedupKeys hay).filter
          (fun s => round3 |centerDist d needle s - 0| = round3 m)) := hcc
  set keys := (dedupKeys hay).filter
    (fun s => round3 |centerDist d needle s - 0| = round3 m) with hkeys
  have hsub : ∀ k ∈ keys, k ∈ hay := fun k hk =>
    mem_dedupKeys.mp (List.mem_of_mem_filter hk)
  rw [find_best_match, hccc, Option.some_bind]
  by_cases hlen : keys.length = 1
  · rw [if_pos hlen]
    obtain ⟨r, hr⟩ : ∃ r, keys.head? = some r := by
      cases hk : keys with
      | nil => exact absurd hk hne
      | cons a as => exact ⟨a, rfl⟩
    exact ⟨r, hr, hsub r (mem_of_head? hr)⟩
  · rw [if_neg hlen]
    obtain ⟨m2, _, hca, hne2⟩ := find_closest_mapDict (fun s => s.area) needle.area keys hne
    have hcaa : closest_area needle keys
        = some ((dedupKeys keys).filter
            (fun s => round3 |s.area - needle.area| = round3 m2)) := hca
    rw [hcaa, Option.some_bind]
    set keys2 := (dedupKeys keys).filter
      (fun s => round3 |s.area - needle.area| = round3 m2) with hkeys2
    obtain ⟨r, hr⟩ : ∃ r, keys2.head? = some r := by
      cases hk : keys2 with
      | nil => exact absurd hk hne2
      | cons a as => exact ⟨a, rfl⟩
    refine ⟨r, hr, hsub r ?_⟩
    exact mem_dedupKeys.mp (List.mem_of_mem_filter (mem_of_head? hr))

theorem find_best_match_eq_none_iff (d : Point → Point → ℚ) (needle : Node)
    (hay : List Node) : find_best_match d needle hay = none ↔ hay = [] := by
  constructor
  · intro h
    by_contra hne
    obtain ⟨r, hr, _⟩ := find_best_match_mem d needle hay hne
    rw [h] at hr
    exact Option.noConfusion hr
  · rintro rfl
    rfl

theorem find_best_match_mem_of_eq {d : Point → Point → ℚ} {needle r : Node}
    {hay : List Node} (h : find_best_match d needle hay = some r) : r ∈ hay := by
  rcases eq_or_ne hay [] with rfl | hne
  · exact Option.noConfusion h
  · obtain ⟨r', hr', hmem⟩ := find_best_match_mem d needle hay hne
    rw [h, Option.some.injEq] at hr'
    exact hr' ▸ hmem

theorem set_exclusion_eq_nil_iff (a b : List Node) :
    set_exclusion a b = [] ↔ ∀ x ∈ b, x ∈ a := by
  simp [set_exclusion, List.filter_eq_nil_iff, mem_dedupKeys]

theorem mem_set_exclusion {a b : List Node} {x : Node} :
    x ∈ set_exclusion a b ↔ x ∈ b ∧ x ∉ a := by
  simp [set_exclusion, List.mem_filter, mem_dedupKeys]

/-! ### The loop of `match` -/

theorem matchAux_eq_some (host : Host) (source : List Node) (l : List Node)
    (h : ∀ node ∈ l, node.hasMeshChild = true → matchHaystack host source node ≠ []) :
    matchAux host source l
      = some (l.filterMap (fun node =>
          if node.hasMeshChild then
            (find_best_match host.dist node (matchHaystack host source node)).map
              (fun m => (node, m))
          else none)) := by
  induction l with
  | nil => rfl
  | cons node rest ih =>
    have hrest : ∀ n ∈ rest, n.hasMeshChild = true → matchHaystack host source n ≠ [] :=
      fun n hn => h n (List.mem_cons_of_mem _ hn)
    cases hmc : node.hasMeshChild with
    | false =>
      rw [matchAux, if_neg (by simp [hmc]), ih hrest, List.filterMap_cons_none (by simp [hmc])]
    | true =>
      obtain ⟨m, hm, _⟩ := find_best_match_mem host.dist node (matchHaystack host source node)
        (h node (List.mem_cons_self _ _) hmc)
      rw [matchAux, if_pos (by simp [hmc]), hm, Option.some_bind, ih hrest,
        List.filterMap_cons]
      simp [hmc, hm]

theorem matchAux_eq_none_iff (host : Host) (source : List Node) (l : List Node) :
    matchAux host source l = none ↔
      ∃ node ∈ l, node.hasMeshChild = true ∧ matchHaystack host source node = [] := by
  induction l with
  | nil => simp [matchAux]
  | cons node rest ih =>
    cases hmc : node.hasMeshChild with
    | false =>
      rw [matchAux, if_neg (by simp [hmc]), ih]
      constructor
      · rintro ⟨n, hn, hmesh, hnil⟩
        exact ⟨n, List.mem_cons_of_mem _ hn, hmesh, hnil⟩
      · rintro ⟨n, hn, hmesh, hnil⟩
        rcases List.mem_cons.mp hn with rfl | hn'
        · rw [hmc] at hmesh
          exact Bool.noConfusion hmesh
        · exact ⟨n, hn', hmesh, hnil⟩
    | true =>
      rw [matchAux, if_pos (by simp [hmc])]
      cases hfb : find_best_match host.dist node (matchHaystack host source node) with
      | none =>
        rw [find_best_match_eq_none_iff] at hfb
        rw [Option.none_bind]
        exact iff_of_true rfl ⟨node, List.mem_cons_self _ _, hmc, hfb⟩
      | some m =>
        rw [Option.some_bind]
        have hfb' := find_best_match_eq_none_iff host.dist node (matchHaystack host source node)
        rw [hfb] at hfb'
        have hnonnil : matchHaystack host source node ≠ [] := by
          intro e
          exact Option.noConfusion (hfb'.mpr e)
        cases hrest : matchAux host source rest with
        | none =>
          rw [Option.map_none']
          obtain ⟨n, hn, hmesh, hnil⟩ := (ih).mp hrest
          exact iff_of_true rfl ⟨n, List.mem_cons_of_mem _ hn, hmesh, hnil⟩
        | some ms =>
          rw [Option.map_some']
          constructor
          · intro hcontr
            exact Option.noConfusion hcontr
          · rintro ⟨n, hn, hmesh, hnil⟩
            exfalso
            rcases List.mem_cons.mp hn with rfl | hn'
            · exact hnonnil hnil
            · have h2 := ih.mpr ⟨n, hn', hmesh, hnil⟩
              rw [hrest] at h2
              exact Option.noConfusion h2

/-! ### The loop of `Window.match` -/

theorem windowMatchAux_eq (host : Host) (w : Window) (l : List Node) :
    windowMatchAux host w l
      = some (l.filterMap (fun item =>
          if wmCandidates host w item = [] then none
          else (find_best_match host.dist item (wmCandidates host w item)).map
            (fun m => (m, item.name.replace w.search w.replace)))) := by
  induction l with
  | nil => rfl
  | cons item rest ih =>
    by_cases hc : wmCandidates host w item = []
    · rw [windowMatchAux, if_neg (by simp [hc]), ih,
        List.filterMap_cons_none (by simp [hc])]
    · obtain ⟨m, hm, _⟩ := find_best_match_mem host.dist item (wmCandidates host w item) hc
      rw [windowMatchAux, if_pos hc, hm, Option.some_bind, ih, List.filterMap_cons]
      simp [hc, hm]

theorem not_mem_low_of_mem_wmCandidates {host : Host} {w : Window} {item x : Node}
    (h : x ∈ wmCandidates host w item) : x ∉ w.low_poly_items := by
  rw [wmCandidates] at h
  by_cases hh : w.high_poly_items ≠ []
  · rw [if_pos hh] at h
    rw [listInter, List.mem_filter] at h
    exact (mem_set_exclusion.mp (mem_dedupKeys.mp h.1)).2
  · rw [if_neg hh] at h
    exact (mem_set_exclusion.mp h).2

theorem exDist_nonneg (p q : Point) : 0 ≤ exDist p q := by
  unfold exDist
  positivity

/-! ### The claims -/

/-- C1: for every item in the loaded low-poly list, `Window.match` renames
exactly one scene node — the best match among the nodes within the
0.5-radius spherical search, minus all loaded low-poly items, intersected
with the loaded high-poly items whenever that list is non-empty — to the
item's node name with the search text replaced by the replace text; an
item whose candidate set is empty causes no rename, and no other node is
renamed. -/
theorem C1_window_match_renames (host : Host) (w : Window) :
    windowMatch host w
      = some (w.low_poly_items.filterMap (fun item =>
          if wmCandidates host w item = [] then none
          else (find_best_match host.dist item (wmCandidates host w item)).map
            (fun m => (m, item.name.replace w.search w.replace)))) ∧
    ∀ item : Node, wmCandidates host w item ≠ [] →
      ∃ m, find_best_match host.dist item (wmCandidates host w item) = some m :=
  ⟨windowMatchAux_eq host w w.low_poly_items, fun item h =>
    (find_best_match_mem host.dist item _ h).elim fun m hm => ⟨m, hm.1⟩⟩

/-- C1 witness: on the concrete host and window, the single loaded
low-poly item has a non-empty candidate set and hence a best match. -/
theorem C1_witness :
    ∃ m, find_best_match exHost.dist nLow (wmCandidates exHost exWindow nLow) = some m :=
  (C1_window_match_renames exHost exWindow).2 nLow (by decide)

/-- C2: the heuristic is staged: `find_best_match` first takes the
center matches; with exactly one center candidate it returns it without
consulting areas, and only with several does it consult `closest_area`;
and `match` builds each needle's haystack from the spherical
soft-selection search (with the source excluded) before any comparison. -/
theorem C2_staged_heuristic :
    (∀ (d : Point → Point → ℚ) (needle : Node) (hay cm : List Node),
      closest_center d needle hay = some cm →
        (cm.length = 1 → find_best_match d needle hay = cm.head?) ∧
        (cm.length ≠ 1 →
          find_best_match d needle hay
            = (closest_area needle cm).bind (fun am => am.head?))) ∧
    (∀ (host : Host) (source : List Node) (node : Node) (rest : List Node),
      node.hasMeshChild = true →
        matchAux host source (node :: rest)
          = (find_best_match host.dist node
              (set_exclusion source (sphereQuery host node 1))).bind (fun m =>
                (matchAux host source rest).map (fun ms => (node, m) :: ms))) := by
  constructor
  · intro d needle hay cm hcc
    constructor
    · intro h1
      rw [find_best_match, hcc, Option.some_bind, if_pos h1]
    · intro h1
      rw [find_best_match, hcc, Option.some_bind, if_neg h1]
  · intro host source node rest hmc
    rw [matchAux, if_pos (by simp [hmc])]
    rfl

/-- C2 witness: with a single candidate the center stage alone decides. -/
theorem C2_witness : find_best_match exDist nLow [nHigh] = [nHigh].head? :=
  ((C2_staged_heuristic.1 exDist nLow [nHigh] [nHigh])
    (by norm_num [closest_center, find_closest, centerDist, exDist, getBoundingBoxCenter,
      dedupKeys, nLow, nHigh, List.min?_cons'])).1 (by decide)

/-- C3: on a non-empty haystack (and any non-negative distance function),
`closest_center` returns a non-empty list that contains every haystack
item whose center distance to the needle is exactly minimal and no item
whose distance rounded to 3 decimals differs from the rounded minimum. -/
theorem C3_closest_center (d : Point → Point → ℚ) (needle : Node) (hay : List Node)
    (hne : hay ≠ []) (hd : ∀ p q, 0 ≤ d p q) :
    ∃ l m, closest_center d needle hay = some l ∧ l ≠ [] ∧
      (hay.map (centerDist d needle)).min? = some m ∧
      (∀ s ∈ hay, centerDist d needle s = m → s ∈ l) ∧
      (∀ s ∈ l, round3 (centerDist d needle s) = round3 m) := by
  obtain ⟨m, hm, hcc, hnen⟩ := find_closest_mapDict (centerDist d needle) 0 hay hne
  have habs : ∀ s, |centerDist d needle s - 0| = centerDist d needle s := fun s => by
    rw [sub_zero]
    exact abs_of_nonneg (hd _ _)
  have hmapeq : hay.map (fun s => |centerDist d needle s - 0|)
      = hay.map (centerDist d needle) :=
    List.map_congr_left (fun s _ => habs s)
  rw [hmapeq] at hm
  refine ⟨_, m, hcc, hnen, hm, ?_, ?_⟩
  · intro s hs hcs
    rw [List.mem_filter]
    refine ⟨mem_dedupKeys.mpr hs, ?_⟩
    simp only [decide_eq_true_eq, habs]
    rw [hcs]
  · intro s hs
    rw [List.mem_filter] at hs
    have := hs.2
    simp only [decide_eq_true_eq, habs] at this
    exact this

/-- C3 witness: concrete needle and two-straw haystack. -/
theorem C3_witness :
    ∃ l m, closest_center exDist nLow [nHigh, nFar] = some l ∧ l ≠ [] ∧
      ([nHigh, nFar].map (centerDist exDist nLow)).min? = some m ∧
      (∀ s ∈ [nHigh, nFar], centerDist exDist nLow s = m → s ∈ l) ∧
      (∀ s ∈ l, round3 (centerDist exDist nLow s) = round3 m) :=
  C3_closest_center exDist nLow [nHigh, nFar] (by decide) exDist_nonneg

/-- C4: when several candidates tie on center distance, `find_best_match`
returns the first (in iteration order over the tied candidates) whose
surface-area difference from the needle, rounded to 3 decimals, equals the
rounded minimal difference; such a candidate always exists. -/
theorem C4_area_tiebreak (d : Point → Point → ℚ) (needle : Node) (hay cm : List Node)
    (hcc : closest_center d needle hay = some cm) (hlen : 1 < cm.length) :
    ∃ m, (cm.map (fun s => |s.area - needle.area|)).min? = some m ∧
      find_best_match d needle hay
        = cm.find? (fun s => round3 |s.area - needle.area| = round3 m) ∧
      (cm.find? (fun s => round3 |s.area - needle.area| = round3 m)).isSome = true := by
  have hne : hay ≠ [] := by
    rintro rfl
    exact Option.noConfusion ((closest_center_nil d needle).symm.trans hcc)
  obtain ⟨m0, hm0, hcc0, hne0⟩ := find_closest_mapDict (centerDist d needle) 0 hay hne
  have hcc0' : closest_center d needle hay
      = some ((dedupKeys hay).filter
          (fun s => round3 |centerDist d needle s - 0| = round3 m0)) := hcc0
  have hcm : cm = (dedupKeys hay).filter
      (fun s => round3 |centerDist d needle s - 0| = round3 m0) :=
    Option.some.inj (hcc.symm.trans hcc0')
  have hnodup : cm.Nodup := hcm ▸ (nodup_dedupKeys.filter _)
  have hcmne : cm ≠ [] := by
    rintro rfl
    simp at hlen
  obtain ⟨m, hm, hca, hnea⟩ := find_closest_mapDict (fun s => s.area) needle.area cm hcmne
  have hca' : closest_area needle cm
      = some ((dedupKeys cm).filter
          (fun s => round3 |s.area - needle.area| = round3 m)) := hca
  rw [dedupKeys_eq_self hnodup] at hca' hnea
  refine ⟨m, hm, ?_, ?_⟩
  · rw [find_best_match, hcc, Option.some_bind, if_neg (by omega), hca', Option.some_bind,
      head?_filter]
  · rw [← head?_filter]
    cases hk : cm.filter (fun s => round3 |s.area - needle.area| = round3 m) with
    | nil => exact absurd hk hnea
    | cons a as => rfl

/-- C4 witness: two candidates equidistant from the needle; the area
tie-break selects among them. -/
theorem C4_witness :
    ∃ m, ([nHigh, nFar].map (fun s => |s.area - nLow.area|)).min? = some m ∧
      find_best_match exDist nLow [nHigh, nFar]
        = [nHigh, nFar].find? (fun s => round3 |s.area - nLow.area| = round3 m) ∧
      ([nHigh, nFar].find? (fun s => round3 |s.area - nLow.area| = round3 m)).isSome
        = true :=
  C4_area_tiebreak exDist nLow [nHigh, nFar] [nHigh, nFar]
    (by norm_num [closest_center, find_closest, centerDist, exDist, getBoundingBoxCenter,
      dedupKeys, nLow, nHigh, nFar, List.min?_cons'])
    (by decide)

/-- C5 counterexample: `match` does not always return a pairing — when the
spherical search finds nothing outside the source list, it raises
(returns `none`) although the source node has an immediate mesh child. -/
theorem C5_counterexample :
    nLow.hasMeshChild = true ∧ matchNodes emptyHost [nLow] = none ∧
      ∀ ps : List (Node × Node), matchNodes emptyHost [nLow] ≠ some ps := by
  have h : matchNodes emptyHost [nLow] = none := by decide
  exact ⟨rfl, h, fun ps hps => Option.noConfusion (h.symm.trans hps)⟩

/-- C5 (amended): provided every source node with an immediate mesh child
has a non-empty haystack (some node found by the spherical search lies
outside the source list), `match(source)` returns exactly one
(node, best-match) pair per such node, in source order, and nodes without
an immediate mesh child contribute no pair. -/
theorem C5_match_pairs (host : Host) (source : List Node)
    (h : ∀ node ∈ source, node.hasMeshChild = true → matchHaystack host source node ≠ []) :
    matchNodes host source
      = some (source.filterMap (fun node =>
          if node.hasMeshChild then
            (find_best_match host.dist node (matchHaystack host source node)).map
              (fun m => (node, m))
          else none)) :=
  matchAux_eq_some host source source h

/-- C5 witness: a source whose spherical searches reach outside nodes. -/
theorem C5_witness :
    matchNodes exHost [nLow]
      = some ([nLow].filterMap (fun node =>
          if node.hasMeshChild then
            (find_best_match exHost.dist node (matchHaystack exHost [nLow] node)).map
              (fun m => (node, m))
          else none)) :=
  C5_match_pairs exHost [nLow] (by decide)

/-- C6: `select_in_sphere(item, radius)` returns exactly `pm.ls` of the
transforms the host reports affected when `item` alone is selected and
soft select is enabled with global falloff (2) and distance `radius`; a
node is returned iff it is a scene node whose name the soft selection
reports as affected.  The result does not depend on the prior state. -/
theorem C6_select_in_sphere (host : Host) (st : MayaState) (item : Node) (radius : ℚ) :
    (select_in_sphere host st item radius).2
      = ls host (host.affected [item] { enabled := true, falloff := 2, distance := radius }) ∧
    (select_in_sphere host st item radius).2 = sphereQuery host item radius ∧
    ∀ n : Node, n ∈ (select_in_sphere host st item radius).2 ↔
      n ∈ host.scene ∧
        n.name ∈ host.affected [item] { enabled := true, falloff := 2, distance := radius } := by
  refine ⟨rfl, rfl, fun n => ?_⟩
  show n ∈ ls host _ ↔ _
  simp [ls, get_softselection, List.mem_filter]

/-- C7: the nearest-neighbor comparison uses, for needle and straws alike,
the world-space bounding-box center: `closest_center` is exactly
`find_closest` over world-space center distances, and is unchanged under
any change of the needle that keeps its world-space center. -/
theorem C7_world_space_centers :
    (∀ (d : Point → Point → ℚ) (needle needle' : Node) (hay : List Node),
      getBoundingBoxCenter needle Space.world = getBoundingBoxCenter needle' Space.world →
        closest_center d needle hay = closest_center d needle' hay) ∧
    (∀ (d : Point → Point → ℚ) (needle : Node) (hay : List Node),
      closest_center d needle hay
        = find_closest ((dedupKeys hay).map (fun straw =>
            (straw, d (getBoundingBoxCenter needle Space.world)
              (getBoundingBoxCenter straw Space.world)))) 0) := by
  constructor
  · intro d needle needle' hay h
    unfold closest_center centerDist
    rw [h]
  · intro d needle hay
    rfl

/-- C7 witness: two needles equal in world space but with different
object-space centers give identical results. -/
theorem C7_witness :
    closest_center exDist nLow [nHigh] = closest_center exDist nLowSkew [nHigh] :=
  C7_world_space_centers.1 exDist nLow nLowSkew [nHigh] rfl

/-- C8: on a non-empty haystack `find_best_match` returns an element of
the haystack; hence every node `Window.match` renames lies in the
filtered candidate set of some loaded low-poly item and is never itself a
low-poly item. -/
theorem C8_match_in_haystack :
    (∀ (d : Point → Point → ℚ) (needle : Node) (hay : List Node), hay ≠ [] →
      ∃ r, find_best_match d needle hay = some r ∧ r ∈ hay) ∧
    (∀ (host : Host) (w : Window) (renames : List (Node × String)) (p : Node × String),
      windowMatch host w = some renames → p ∈ renames →
        ∃ item ∈ w.low_poly_items,
          p.1 ∈ wmCandidates host w item ∧ p.1 ∉ w.low_poly_items) := by
  constructor
  · exact find_best_match_mem
  · intro host w renames p hwm hp
    have h2 : windowMatch host w
        = some (w.low_poly_items.filterMap (fun item =>
            if wmCandidates host w item = [] then none
            else (find_best_match host.dist item (wmCandidates host w item)).map
              (fun m => (m, item.name.replace w.search w.replace)))) :=
      windowMatchAux_eq host w w.low_poly_items
    rw [hwm, Option.some.injEq] at h2
    subst h2
    obtain ⟨item, hitem, hf⟩ := List.mem_filterMap.mp hp
    by_cases hc : wmCandidates host w item = []
    · rw [if_pos hc] at hf
      exact Option.noConfusion hf
    · rw [if_neg hc] at hf
      obtain ⟨m, hm, hmp⟩ := Option.map_eq_some'.mp hf
      have hmem : m ∈ wmCandidates host w item := find_best_match_mem_of_eq hm
      have hp1 : p.1 = m := by rw [← hmp]
      rw [hp1]
      exact ⟨item, hitem, hmem, not_mem_low_of_mem_wmCandidates hmem⟩

/-- C8 witness: a singleton haystack. -/
theorem C8_witness :
    ∃ r, find_best_match exDist nLow [nHigh] = some r ∧ r ∈ [nHigh] :=
  C8_match_in_haystack.1 exDist nLow [nHigh] (by decide)

/-- C9: `find_closest` raises (`none`) exactly on an empty dict, so
`find_best_match` raises exactly on an empty haystack, and `match(source)`
raises exactly when some source node with an immediate mesh child has
every node of its spherical search inside `source`. -/
theorem C9_error_propagation :
    (∀ (dict : List (Node × ℚ)) (target : ℚ), find_closest dict target = none ↔ dict = []) ∧
    (∀ (d : Point → Point → ℚ) (needle : Node) (hay : List Node),
      find_best_match d needle hay = none ↔ hay = []) ∧
    (∀ (host : Host) (source : List Node),
      matchNodes host source = none ↔
        ∃ node ∈ source, node.hasMeshChild = true ∧
          ∀ x ∈ sphereQuery host node 1, x ∈ source) := by
  refine ⟨?_, find_best_match_eq_none_iff, ?_⟩
  · intro dict target
    constructor
    · intro hnone
      cases h : (dict.map (fun kv => |kv.2 - target|)).min? with
      | none =>
        rw [List.min?_eq_none_iff, List.map_eq_nil_iff] at h
        exact h
      | some m =>
        unfold find_closest at hnone
        rw [h] at hnone
        exact Option.noConfusion hnone
    · rintro rfl
      rfl
  · intro host source
    have h1 := matchAux_eq_none_iff host source source
    refine h1.trans ⟨?_, ?_⟩
    · rintro ⟨n, hn, hm, hnil⟩
      exact ⟨n, hn, hm, (set_exclusion_eq_nil_iff _ _).mp hnil⟩
    · rintro ⟨n, hn, hm, hall⟩
      exact ⟨n, hn, hm, (set_exclusion_eq_nil_iff _ _).mpr hall⟩

/-- C10: after `select_in_sphere` returns, soft select is disabled and
reset to the host defaults, and the previously active selection is
restored (the selection is cleared when nothing was selected, which
coincides with restoring the empty selection). -/
theorem C10_state_restored (host : Host) (st : MayaState) (item : Node) (radius : ℚ) :
    (select_in_sphere host st item radius).1.selection = st.selection ∧
    (select_in_sphere host st item radius).1.soft
      = { host.softDefaults with enabled := false } := by
  constructor
  · show (if st.selection ≠ [] then st.selection else []) = st.selection
    by_cases h : st.selection = []
    · rw [if_neg (by simp [h]), h]
    · rw [if_pos h]
  · rfl

/-- C6 witness: concrete state and item. -/
theorem C6_witness :
    (select_in_sphere exHost { selection := [nFar], soft := exHost.softDefaults } nLow 1).2
      = sphereQuery exHost nLow 1 :=
  (C6_select_in_sphere exHost { selection := [nFar], soft := exHost.softDefaults } nLow 1).2.1

/-- C9 witness: an empty haystack makes `find_best_match` raise. -/
theorem C9_witness :
    find_best_match exDist nLow ([] : List Node) = none ↔ ([] : List Node) = [] :=
  C9_error_propagation.2.1 exDist nLow []

/-- C10 witness: concrete state with a non-default soft selection. -/
theorem C10_witness :
    (select_in_sphere exHost
        { selection := [nFar], soft := { enabled := true, falloff := 9, distance := 3 } }
        nLow 1).1.selection = [nFar] ∧
    (select_in_sphere exHost
        { selection := [nFar], soft := { enabled := true, falloff := 9, distance := 3 } }
        nLow 1).1.soft = { exHost.softDefaults with enabled := false } :=
  C10_state_restored exHost
    { selection := [nFar], soft := { enabled := true, falloff := 9, distance := 3 } } nLow 1

end MatchMaker
